import Mathlib

/-!
Verification development for the poker-standings repository.

The normalizer lives in `src/schema.py` (`_clean_numeric_series`,
`detect_results_schema`, `normalize_results_df`); it is embedded here over an
explicit tabular data model.  pandas DataFrames are modelled as a list of
column names together with a list of rows; raw (pre-normalization) cells are
either missing or text, matching the spec's RawCell description (§9: a typed
sum Text | Missing) and the ledger-source interface (§6: mapping of column
name to cell values).  Machine floats are modelled as exact rationals: every
numeric literal the normalizer manipulates in the claims is decimal and
exactly representable.

Fallible behaviour of the Python code (pandas raises when a duplicated
column label makes `working[name]` a DataFrame and the code then calls a
Series-only accessor such as `.str`, or `pd.to_datetime` on it) is modelled
with `Except`: column access returns an error exactly when the accessed
label is absent or duplicated.
-/

namespace Poker

/-- Model of Python `str.lower` restricted to ASCII letters (all column-name
constants the normalizer compares against are ASCII). -/
def pyLowerChar (c : Char) : Char :=
  if 65 ≤ c.toNat ∧ c.toNat ≤ 90 then Char.ofNat (c.toNat + 32) else c

def pyLower (s : String) : String :=
  String.mk (s.toList.map pyLowerChar)

/-- Model of Python `str.strip` on a character list: drop leading and
trailing whitespace. -/
def pyStripL (l : List Char) : List Char :=
  ((l.dropWhile Char.isWhitespace).reverse.dropWhile Char.isWhitespace).reverse

def pyStrip (s : String) : String :=
  String.mk (pyStripL s.toList)

/-- `normalize_results_df` standardizes column names with
`str(c).strip().lower()`. -/
def stdName (s : String) : String :=
  pyLower (pyStrip s)

/-- A raw ledger cell: missing, or text (spec §9: RawCell = Text | Missing). -/
inductive RawCell
  | na
  | text (s : String)
deriving DecidableEq

/-- A Gregorian calendar date, modelling a pandas timestamp at day
granularity (the normalizer keeps no time component). -/
structure PDate where
  year : ℕ
  month : ℕ
  day : ℕ
deriving DecidableEq

/-- A cell of the working/normalized frame: missing (NaN/NaT), text, an
exact numeric value, or a parsed date. -/
inductive Cell
  | na
  | text (s : String)
  | num (q : ℚ)
  | date (d : PDate)
deriving DecidableEq

/-- Python `str(x)` as pandas `astype(str)` applies it cellwise.  Crucially,
`astype(str)` renders a missing value (NaN) as the string "nan"; this is the
behaviour of the source at `working[col].astype(str)`.  The `num`/`date`
renderings are placeholders: in `normalize_results_df` string coercion is
applied only to columns still holding raw (missing-or-text) cells. -/
def cellStr : Cell → String
  | .na => "nan"
  | .text s => s
  | .num q => toString q
  | .date d => toString d.year ++ "-" ++ toString d.month ++ "-" ++ toString d.day

def RawCell.toCell : RawCell → Cell
  | .na => .na
  | .text s => .text s

/-! ## Numeric cleaning (`_clean_numeric_series`) -/

/-- Split a character list at the first ')': returns the (')'-free) part
before it and the part after it. -/
def splitAtClose : List Char → Option (List Char × List Char)
  | [] => none
  | c :: rest =>
    if c = ')' then some ([], rest)
    else (splitAtClose rest).map (fun p => (c :: p.1, p.2))

/-- One pass of `re.sub(r"\(([^)]+)\)", r"-\1", text)`: each parenthesized
group with nonempty ')'-free content, scanned left to right, is replaced by
'-' followed by the content.  Fuel-driven structural recursion; fuel equal
to the input length always suffices because every recursive call consumes at
least one character. -/
def parenSubFuel : ℕ → List Char → List Char
  | 0, l => l
  | _ + 1, [] => []
  | fuel + 1, c :: rest =>
    if c = '(' then
      match splitAtClose rest with
      | some (content, after) =>
        if content.isEmpty then c :: parenSubFuel fuel rest
        else '-' :: (content ++ parenSubFuel fuel after)
      | none => c :: parenSubFuel fuel rest
    else c :: parenSubFuel fuel rest

def parenSub (l : List Char) : List Char :=
  parenSubFuel l.length l

/-- The character filter `re.sub(r"[^0-9.\-]", "", ·)`: keep only digits,
the decimal point, and the minus sign. -/
def isNumKeep (c : Char) : Bool :=
  c.isDigit || c = '.' || c = '-'

def digitsVal (l : List Char) : ℕ :=
  l.foldl (fun acc c => acc * 10 + (c.toNat - 48)) 0

/-- Model of `pd.to_numeric(·, errors="coerce")` on strings drawn from the
alphabet left by the character filter (digits, '.', '-'): Python numeric
literal syntax — an optional leading minus, then digits with at most one
decimal point and at least one digit.  Anything else coerces to missing.
The value ±(ip + fp / 10^k) is built with `mkRat` over the scaled integer
±(ip·10^k + fp), which is the same rational. -/
def parseDecimalL (l : List Char) : Option ℚ :=
  let signBody : Bool × List Char :=
    match l with
    | '-' :: rest => (true, rest)
    | _ => (false, l)
  let neg := signBody.1
  let body := signBody.2
  if body.all (fun c => c.isDigit || c = '.') then
    match body.splitOn '.' with
    | [ip] =>
      if ip.isEmpty then none
      else some (mkRat (if neg then -(digitsVal ip : ℤ) else (digitsVal ip : ℤ)) 1)
    | [ip, fp] =>
      if ip.isEmpty ∧ fp.isEmpty then none
      else
        let mag : ℤ := (digitsVal ip * 10 ^ fp.length + digitsVal fp : ℕ)
        some (mkRat (if neg then -mag else mag) (10 ^ fp.length))
    | _ => none
  else none

/-- The non-breaking space U+00A0 that `_clean_numeric_series` removes
before stripping. -/
def nbspChar : Char := Char.ofNat 160

/-- The cellwise content of `_clean_numeric_series`: stringify, remove
non-breaking spaces, strip, rewrite accounting negatives, drop every
character that is not a digit / '.' / '-', treat "" as missing, coerce. -/
def cleanNumericString (s : String) : Option ℚ :=
  let t0 := s.toList.filter (fun c => c ≠ nbspChar)
  let t1 := pyStripL t0
  let t2 := parenSub t1
  let t3 := t2.filter isNumKeep
  if t3.isEmpty then none else parseDecimalL t3

def cleanNumericCell (c : Cell) : Cell :=
  match cleanNumericString (cellStr c) with
  | some q => .num q
  | none => .na

/-- Rational subtraction written through `mkRat` (the cross-multiplication
formula); `ratSub_eq_sub` below shows it is exactly `a - b`. -/
def ratSub (a b : ℚ) : ℚ :=
  mkRat (a.num * (b.den : ℤ) - b.num * (a.den : ℤ)) (a.den * b.den)

/-- `working["cash_out"] - working["buy_in"]`: elementwise subtraction of
two numeric pandas Series; a missing value on either side propagates. -/
def subCell : Cell → Cell → Cell
  | .num a, .num b => .num (ratSub a b)
  | _, _ => .na

/-! ## Date parsing (`pd.to_datetime(·, errors="coerce", dayfirst=True)`) -/

def isLeap (y : ℕ) : Bool :=
  (y % 4 = 0 && y % 100 ≠ 0) || y % 400 = 0

def daysInMonth (y m : ℕ) : ℕ :=
  if m = 2 then (if isLeap y then 29 else 28)
  else if m = 4 ∨ m = 6 ∨ m = 9 ∨ m = 11 then 30
  else 31

def validDMY (y m d : ℕ) : Bool :=
  1 ≤ m && m ≤ 12 && 1 ≤ d && d ≤ daysInMonth y m

/-- Model of `pd.to_datetime(·, errors="coerce", dayfirst=True)` on text
cells, restricted to slash-separated all-numeric dates with a four-digit
year (the date format family the claims exercise).  `dayfirst=True` means
the first field is preferred as the day and falls back to the month/day
reading only when the day-first reading is not a valid calendar date;
anything else coerces to missing (NaT). -/
def parseDateString (s : String) : Option PDate :=
  match (pyStripL s.toList).splitOn '/' with
  | [a, b, c] =>
    if (!a.isEmpty) && (!b.isEmpty) && c.length = 4
        && (a ++ b ++ c).all Char.isDigit then
      let x := digitsVal a
      let y := digitsVal b
      let yr := digitsVal c
      if validDMY yr y x then some ⟨yr, y, x⟩
      else if validDMY yr x y then some ⟨yr, x, y⟩
      else none
    else none
  | _ => none

def parseDateCell : Cell → Cell
  | .na => .na
  | .text s =>
    match parseDateString s with
    | some d => .date d
    | none => .na
  | .num _ => .na
  | .date d => .date d

/-- `working[col].astype(str).str.strip()`, the trimming applied to the
player / group / session_id columns. -/
def strCleanCell (c : Cell) : Cell :=
  .text (pyStrip (cellStr c))

/-! ## Schema detection (`detect_results_schema`) -/

inductive Schema
  | net_direct
  | buyin_cashout
  | unknown
deriving DecidableEq

/-- `detect_results_schema`: lowercase (without stripping) the column
names, then test the two required-column supersets in order. -/
def detect_results_schema (cols : List String) : Schema :=
  let cs := cols.map pyLower
  if "player" ∈ cs ∧ "date" ∈ cs ∧ "net" ∈ cs then .net_direct
  else if "player" ∈ cs ∧ "date" ∈ cs ∧ "buy_in" ∈ cs ∧ "cash_out" ∈ cs then
    .buyin_cashout
  else .unknown

/-! ## Frames -/

/-- A raw input DataFrame: ordered column labels and rows of raw cells
(cell `i` of a row belongs to column `i`). -/
structure RawFrame where
  cols : List String
  rows : List (List RawCell)
deriving DecidableEq

/-- A working / normalized DataFrame. -/
structure Frame where
  cols : List String
  rows : List (List Cell)
deriving DecidableEq

def RawFrame.toFrame (f : RawFrame) : Frame :=
  ⟨f.cols, f.rows.map (List.map RawCell.toCell)⟩

/-- A DataFrame is rectangular: every row has one cell per column. -/
def RawFrame.Rect (f : RawFrame) : Prop :=
  ∀ r ∈ f.rows, r.length = f.cols.length

instance (f : RawFrame) : Decidable f.Rect :=
  inferInstanceAs (Decidable (∀ r ∈ f.rows, r.length = f.cols.length))

def fiveCols : List String :=
  ["player", "date", "net", "group", "session_id"]

/-- `pd.DataFrame(columns=["player", "date", "net", "group", "session_id"])`. -/
def emptyDataset : Frame :=
  ⟨fiveCols, []⟩

/-- `working.columns = [str(c).strip().lower() for c in working.columns]`. -/
def standardizeColumns (f : Frame) : Frame :=
  ⟨f.cols.map stdName, f.rows⟩

def isNA : Cell → Bool
  | .na => true
  | _ => false

/-- `working[name]` followed by a Series-only operation.  With a unique
matching label this is the Series of that column.  pandas returns a
DataFrame when the label is duplicated, and every use of this selection in
`normalize_results_df` then raises (`.str` on a DataFrame, `pd.to_datetime`
of a DataFrame without year/month/day columns), so a duplicated label is
modelled as an error at the access; a missing label is a KeyError. -/
def getSeries (f : Frame) (name : String) : Except String (List Cell) :=
  if name ∈ f.cols then
    if f.cols.count name = 1 then
      .ok (f.rows.map (fun r => r.getD (f.cols.indexOf name) Cell.na))
    else .error ("ambiguous column: " ++ name)
  else .error ("KeyError: " ++ name)

/-- `working[name] = vals`: overwrite the existing column, or append a new
one on first assignment. -/
def setCol (f : Frame) (name : String) (vals : List Cell) : Frame :=
  if name ∈ f.cols then
    ⟨f.cols, List.zipWith (fun r v => r.set (f.cols.indexOf name) v) f.rows vals⟩
  else
    ⟨f.cols ++ [name], List.zipWith (fun r v => r ++ [v]) f.rows vals⟩

/-- One iteration of the trimming loop:
`if col in working.columns: working[col] = working[col].astype(str).str.strip()`. -/
def trimColE (f : Frame) (name : String) : Except String Frame :=
  if name ∈ f.cols then
    match getSeries f name with
    | .error e => .error e
    | .ok col => .ok (setCol f name (col.map strCleanCell))
  else .ok f

/-- `working[keep]` with
`keep = [c for c in ["player","date","net","group","session_id"] if c in working.columns]`. -/
def selectKeep (f : Frame) : Frame :=
  let keep := fiveCols.filter (fun c => c ∈ f.cols)
  ⟨keep, f.rows.map (fun r => keep.map (fun name => r.getD (f.cols.indexOf name) Cell.na))⟩

/-- `.dropna(subset=["player", "date", "net"])`: keep the rows whose cell in
each of those columns is not missing.  (In `normalize_results_df` the three
columns are always present when this runs; an absent subset column is
modelled as unconstrained.) -/
def dropnaPDN (f : Frame) : Frame :=
  ⟨f.cols, f.rows.filter (fun r =>
    ["player", "date", "net"].all (fun name =>
      if name ∈ f.cols then !isNA (r.getD (f.cols.indexOf name) Cell.na) else true))⟩

/-- Sequencing of fallible steps: propagate the first pandas exception. -/
def exceptBind (e : Except String α) (f : α → Except String β) : Except String β :=
  match e with
  | .error msg => .error msg
  | .ok v => f v

/-- The tail of `normalize_results_df` after the net column is in place:
date parsing, string trimming, column selection, and row filtering. -/
def finishFrame (w : Frame) : Except String Frame :=
  exceptBind (getSeries w "date") (fun dcol =>
    exceptBind (trimColE (setCol w "date" (dcol.map parseDateCell)) "player") (fun w2 =>
      exceptBind (trimColE w2 "group") (fun w3 =>
        exceptBind (trimColE w3 "session_id") (fun w4 =>
          .ok (dropnaPDN (selectKeep w4))))))

/-- `normalize_results_df`.  The input is `Option` to model the `df is None`
guard.  In the `buyin_cashout` arm the source re-reads the two freshly
assigned columns to compute the net
(`working["net"] = working["cash_out"] - working["buy_in"]`); with a unique
label, reading a column straight after assigning it yields the assigned
Series, so the cleaned Series are used directly. -/
def normalize_results_df (input : Option RawFrame) : Except String Frame :=
  match input with
  | none => .ok emptyDataset
  | some df =>
    if df.rows.isEmpty ∨ df.cols.isEmpty then .ok emptyDataset
    else
      let working := standardizeColumns df.toFrame
      match detect_results_schema working.cols with
      | .unknown => .ok emptyDataset
      | .net_direct =>
        exceptBind (getSeries working "net") (fun ncol =>
          finishFrame (setCol working "net" (ncol.map cleanNumericCell)))
      | .buyin_cashout =>
        exceptBind (getSeries working "buy_in") (fun bcol =>
          let bclean := bcol.map cleanNumericCell
          let w1 := setCol working "buy_in" bclean
          exceptBind (getSeries w1 "cash_out") (fun ccol =>
            let cclean := ccol.map cleanNumericCell
            let w2 := setCol w1 "cash_out" cclean
            finishFrame (setCol w2 "net" (List.zipWith subCell cclean bclean))))

/-! ## Helper lemmas -/

theorem ratSub_eq_sub (a b : ℚ) : ratSub a b = a - b := by
  unfold ratSub
  rw [Rat.sub_def, mkRat]
  rw [dif_neg (by
    intro h
    rcases Nat.mul_eq_zero.mp h with h' | h'
    · exact a.den_nz h'
    · exact b.den_nz h')]

theorem toNat_ofNat_of_valid (n : ℕ) (h : n < 55296) : (Char.ofNat n).toNat = n := by
  have hv : n.isValidChar := Or.inl h
  simp only [Char.ofNat, hv, Char.ofNatAux, Char.toNat, dif_pos]
  rfl

theorem pyLowerChar_idem (c : Char) : pyLowerChar (pyLowerChar c) = pyLowerChar c := by
  unfold pyLowerChar
  by_cases h : 65 ≤ c.toNat ∧ c.toNat ≤ 90
  · rw [if_pos h]
    have h32 : (Char.ofNat (c.toNat + 32)).toNat = c.toNat + 32 :=
      toNat_ofNat_of_valid _ (by omega)
    rw [if_neg (by rw [h32]; omega)]
  · rw [if_neg h, if_neg h]

theorem toList_mk (l : List Char) : (String.mk l).toList = l := rfl

theorem pyLower_idem (s : String) : pyLower (pyLower s) = pyLower s := by
  unfold pyLower
  rw [toList_mk, List.map_map]
  exact congrArg String.mk (List.map_congr_left (fun a _ => pyLowerChar_idem a))

theorem pyLower_stdName (s : String) : pyLower (stdName s) = stdName s :=
  pyLower_idem (pyStrip s)

theorem map_pyLower_map_stdName (cols : List String) :
    (cols.map stdName).map pyLower = cols.map stdName := by
  rw [List.map_map]
  exact List.map_congr_left (fun a _ => pyLower_stdName a)

/-- `detect_results_schema` on already-standardized names: the inner
lowercasing is the identity, so detection is plain membership testing. -/
theorem detect_on_fixed (cs : List String) (h : cs.map pyLower = cs) :
    detect_results_schema cs =
      (if "player" ∈ cs ∧ "date" ∈ cs ∧ "net" ∈ cs then Schema.net_direct
       else if "player" ∈ cs ∧ "date" ∈ cs ∧ "buy_in" ∈ cs ∧ "cash_out" ∈ cs then
         Schema.buyin_cashout
       else Schema.unknown) := by
  unfold detect_results_schema
  rw [h]

theorem getD_set_self (l : List α) (i : ℕ) (v d : α) (h : i < l.length) :
    (l.set i v).getD i d = v := by
  simp [List.getElem?_set_self (by simpa using h)]

theorem getD_set_ne (l : List α) (i j : ℕ) (v d : α) (h : i ≠ j) :
    (l.set i v).getD j d = l.getD j d := by
  simp [List.getElem?_set_ne h]

theorem getD_append_left (l₁ l₂ : List α) (i : ℕ) (d : α) (h : i < l₁.length) :
    (l₁ ++ l₂).getD i d = l₁.getD i d := by
  simp [List.getElem?_append_left h]

theorem getD_append_len (l : List α) (x d : α) : (l ++ [x]).getD l.length d = x := by
  simp [List.getElem?_append_right (Nat.le_refl l.length)]

theorem count_eq_one_of_nodup_mem {l : List α} [DecidableEq α] {a : α}
    (hn : l.Nodup) (hm : a ∈ l) : l.count a = 1 :=
  Nat.le_antisymm (List.nodup_iff_count_le_one.mp hn a) (List.count_pos_iff.mpr hm)

theorem indexOf_ne_of_ne {l : List α} [DecidableEq α] {a b : α}
    (ha : a ∈ l) (hb : b ∈ l) (hab : a ≠ b) :
    l.indexOf a ≠ l.indexOf b := by
  intro hEq
  apply hab
  have h1 : l[List.indexOf a l]? = some a := by
    rw [List.getElem?_eq_getElem (List.indexOf_lt_length.mpr ha), List.getElem_indexOf]
  have h2 : l[List.indexOf b l]? = some b := by
    rw [List.getElem?_eq_getElem (List.indexOf_lt_length.mpr hb), List.getElem_indexOf]
  rw [hEq, h2] at h1
  exact (Option.some.inj h1).symm

theorem zipWith_map_right_same (l : List α) (g : α → β) (f : α → β → γ) :
    List.zipWith f l (l.map g) = l.map (fun a => f a (g a)) := by
  rw [List.zipWith_map_right, List.zipWith_same]

theorem zipWith_map_map_same {α : Type u} {β : Type v} {γ : Type w} {δ : Type x}
    (l : List α) (g : α → β) (h : α → γ) (f : β → γ → δ) :
    List.zipWith f (l.map g) (l.map h) = l.map (fun a => f (g a) (h a)) := by
  rw [List.zipWith_map_right, List.zipWith_map_left, List.zipWith_same]

theorem getD_map_of_default (l : List α) (f : α → β) (i : ℕ) (d₁ : α) (d₂ : β)
    (hd : f d₁ = d₂) : (l.map f).getD i d₂ = f (l.getD i d₁) := by
  by_cases h : i < l.length
  · rw [List.getD_eq_getElem _ _ (by simpa using h), List.getD_eq_getElem _ _ h,
      List.getElem_map]
  · rw [List.getD_eq_default _ _ (by simpa using Nat.le_of_not_lt h),
      List.getD_eq_default _ _ (Nat.le_of_not_lt h), hd]

theorem getD_map_indexOf [DecidableEq α] (K : List α) (g : α → β) (name : α) (d : β)
    (h : name ∈ K) : (K.map g).getD (K.indexOf name) d = g name := by
  have hlt := List.indexOf_lt_length.mpr h
  rw [List.getD_eq_getElem _ _ (by simpa using hlt), List.getElem_map,
    List.getElem_indexOf]

/-! ## Row-wise reference semantics

The source applies `_clean_numeric_series`, `pd.to_datetime`, elementwise
subtraction, and `astype(str).str.strip()` columnwise; each is an
elementwise map, so `normalize_results_df` admits an equivalent row-at-a-time
description, proved below as `normalize_netdirect_rowwise` and
`normalize_buyin_rowwise`.  These definitions spell out that per-row record.
`cs` is the standardized column-name list of the input. -/

/-- The raw cell of row `r` under column `name`, injected into the working
cell type. -/
def rawAt (cs : List String) (r : List RawCell) (name : String) : Cell :=
  (r.getD (cs.indexOf name) RawCell.na).toCell

/-- A `net_direct` record entry: the date column is parsed, the net column
is numerically cleaned, the string columns are stringified and trimmed. -/
def ndCell (cs : List String) (r : List RawCell) (name : String) : Cell :=
  if name = "date" then parseDateCell (rawAt cs r name)
  else if name = "net" then cleanNumericCell (rawAt cs r name)
  else strCleanCell (rawAt cs r name)

def ndRow (cs : List String) (r : List RawCell) : List Cell :=
  (fiveCols.filter (fun c => c ∈ cs)).map (ndCell cs r)

/-- Row admission for `net_direct`: the dropna gate on player, date, net. -/
def ndKept (cs : List String) (r : List RawCell) : Bool :=
  !isNA (ndCell cs r "player") && !isNA (ndCell cs r "date") && !isNA (ndCell cs r "net")

/-- A `buyin_cashout` record entry: net is cleaned cash_out minus cleaned
buy_in, computed per row; the rest as in `net_direct`. -/
def bcCell (cs : List String) (r : List RawCell) (name : String) : Cell :=
  if name = "date" then parseDateCell (rawAt cs r name)
  else if name = "net" then
    subCell (cleanNumericCell (rawAt cs r "cash_out")) (cleanNumericCell (rawAt cs r "buy_in"))
  else strCleanCell (rawAt cs r name)

def bcRow (cs : List String) (r : List RawCell) : List Cell :=
  (fiveCols.filter (fun c => c ∈ cs ++ ["net"])).map (bcCell cs r)

def bcKept (cs : List String) (r : List RawCell) : Bool :=
  !isNA (bcCell cs r "player") && !isNA (bcCell cs r "date") && !isNA (bcCell cs r "net")

/-! ## Frame operation lemmas -/

theorem getSeries_ok (cs : List String) (rows : List (List Cell)) (name : String)
    (hN : cs.Nodup) (hm : name ∈ cs) :
    getSeries ⟨cs, rows⟩ name =
      .ok (rows.map (fun r => r.getD (cs.indexOf name) Cell.na)) := by
  unfold getSeries
  rw [if_pos hm, if_pos (count_eq_one_of_nodup_mem hN hm)]

theorem setCol_replace (cs : List String) (rows : List (List Cell)) (name : String)
    (vals : List Cell) (hm : name ∈ cs) :
    setCol ⟨cs, rows⟩ name vals =
      ⟨cs, List.zipWith (fun r v => r.set (cs.indexOf name) v) rows vals⟩ := by
  unfold setCol
  rw [if_pos hm]

theorem setCol_append (cs : List String) (rows : List (List Cell)) (name : String)
    (vals : List Cell) (hm : name ∉ cs) :
    setCol ⟨cs, rows⟩ name vals =
      ⟨cs ++ [name], List.zipWith (fun r v => r ++ [v]) rows vals⟩ := by
  unfold setCol
  rw [if_neg hm]

/-- Assigning a transformed read-back of a column rewrites that column
rowwise. -/
theorem setCol_map_self (cs : List String) (rows : List (List Cell)) (name : String)
    (g : Cell → Cell) (hm : name ∈ cs) :
    setCol ⟨cs, rows⟩ name ((rows.map (fun r => r.getD (cs.indexOf name) Cell.na)).map g) =
      ⟨cs, rows.map (fun r => r.set (cs.indexOf name) (g (r.getD (cs.indexOf name) Cell.na)))⟩ := by
  rw [setCol_replace _ _ _ _ hm, List.map_map]
  exact congrArg (Frame.mk cs) (zipWith_map_right_same rows _ _)

theorem trimColE_mem (cs : List String) (rows : List (List Cell)) (name : String)
    (hN : cs.Nodup) (hm : name ∈ cs) :
    trimColE ⟨cs, rows⟩ name =
      .ok ⟨cs, rows.map (fun r =>
        r.set (cs.indexOf name) (strCleanCell (r.getD (cs.indexOf name) Cell.na)))⟩ := by
  unfold trimColE
  rw [if_pos hm, getSeries_ok _ _ _ hN hm]
  exact congrArg Except.ok (setCol_map_self _ _ _ _ hm)

theorem trimColE_not_mem (f : Frame) (name : String) (hm : name ∉ f.cols) :
    trimColE f name = .ok f := by
  unfold trimColE
  rw [if_neg hm]

theorem exceptBind_ok (v : α) (f : α → Except String β) :
    exceptBind (.ok v) f = f v := rfl

/-! ## Row-wise characterization of `finishFrame` -/

/-- What `finishFrame` does to one working row before column selection:
parse the date cell in place, trim the player cell, and trim the group /
session_id cells when those columns exist. -/
def finTransform (C : List String) (r : List Cell) : List Cell :=
  let r1 := r.set (C.indexOf "date") (parseDateCell (r.getD (C.indexOf "date") Cell.na))
  let r2 := r1.set (C.indexOf "player") (strCleanCell (r1.getD (C.indexOf "player") Cell.na))
  let r3 :=
    if "group" ∈ C then
      r2.set (C.indexOf "group") (strCleanCell (r2.getD (C.indexOf "group") Cell.na))
    else r2
  if "session_id" ∈ C then
    r3.set (C.indexOf "session_id") (strCleanCell (r3.getD (C.indexOf "session_id") Cell.na))
  else r3

/-- The value of one selected column of a `finishFrame` output row, read
off the untransformed working row. -/
def finCell (C : List String) (r : List Cell) (name : String) : Cell :=
  if name = "date" then parseDateCell (r.getD (C.indexOf "date") Cell.na)
  else if name = "net" then r.getD (C.indexOf "net") Cell.na
  else strCleanCell (r.getD (C.indexOf name) Cell.na)

def finRow (C : List String) (r : List Cell) : List Cell :=
  (fiveCols.filter (fun c => c ∈ C)).map (finCell C r)

def finKept (C : List String) (r : List Cell) : Bool :=
  !isNA (finCell C r "player") && !isNA (finCell C r "date") && !isNA (finCell C r "net")

theorem finTransform_getD (C : List String) (r : List Cell) (name : String)
    (hr : r.length = C.length) (hfive : name ∈ fiveCols) (hmC : name ∈ C)
    (hd : "date" ∈ C) (hp : "player" ∈ C) :
    (finTransform C r).getD (C.indexOf name) Cell.na = finCell C r name := by
  have hlt : ∀ m, m ∈ C → C.indexOf m < r.length := fun m hm => by
    rw [hr]; exact List.indexOf_lt_length.mpr hm
  have hne : ∀ m₁ m₂, m₁ ∈ C → m₂ ∈ C → m₁ ≠ m₂ → C.indexOf m₁ ≠ C.indexOf m₂ :=
    fun _ _ h₁ h₂ h12 => indexOf_ne_of_ne h₁ h₂ h12
  unfold finTransform finCell
  fin_cases hfive
  · -- player
    simp only [String.reduceEq, reduceIte]
    by_cases hs : "session_id" ∈ C
    · rw [if_pos hs, getD_set_ne _ _ _ _ _ (hne _ _ hs hp (by decide))]
      by_cases hg : "group" ∈ C
      · rw [if_pos hg, getD_set_ne _ _ _ _ _ (hne _ _ hg hp (by decide)),
          getD_set_self _ _ _ _ (by simpa using hlt _ hp),
          getD_set_ne _ _ _ _ _ (hne _ _ hd hp (by decide))]
      · rw [if_neg hg, getD_set_self _ _ _ _ (by simpa using hlt _ hp),
          getD_set_ne _ _ _ _ _ (hne _ _ hd hp (by decide))]
    · rw [if_neg hs]
      by_cases hg : "group" ∈ C
      · rw [if_pos hg, getD_set_ne _ _ _ _ _ (hne _ _ hg hp (by decide)),
          getD_set_self _ _ _ _ (by simpa using hlt _ hp),
          getD_set_ne _ _ _ _ _ (hne _ _ hd hp (by decide))]
      · rw [if_neg hg, getD_set_self _ _ _ _ (by simpa using hlt _ hp),
          getD_set_ne _ _ _ _ _ (hne _ _ hd hp (by decide))]
  · -- date
    simp only [String.reduceEq, reduceIte]
    by_cases hs : "session_id" ∈ C
    · rw [if_pos hs, getD_set_ne _ _ _ _ _ (hne _ _ hs hd (by decide))]
      by_cases hg : "group" ∈ C
      · rw [if_pos hg, getD_set_ne _ _ _ _ _ (hne _ _ hg hd (by decide)),
          getD_set_ne _ _ _ _ _ (hne _ _ hp hd (by decide)),
          getD_set_self _ _ _ _ (hlt _ hd)]
      · rw [if_neg hg, getD_set_ne _ _ _ _ _ (hne _ _ hp hd (by decide)),
          getD_set_self _ _ _ _ (hlt _ hd)]
    · rw [if_neg hs]
      by_cases hg : "group" ∈ C
      · rw [if_pos hg, getD_set_ne _ _ _ _ _ (hne _ _ hg hd (by decide)),
          getD_set_ne _ _ _ _ _ (hne _ _ hp hd (by decide)),
          getD_set_self _ _ _ _ (hlt _ hd)]
      · rw [if_neg hg, getD_set_ne _ _ _ _ _ (hne _ _ hp hd (by decide)),
          getD_set_self _ _ _ _ (hlt _ hd)]
  · -- net: untouched by every set in the chain
    simp only [String.reduceEq, reduceIte]
    by_cases hs : "session_id" ∈ C
    · rw [if_pos hs, getD_set_ne _ _ _ _ _ (hne _ _ hs hmC (by decide))]
      by_cases hg : "group" ∈ C
      · rw [if_pos hg, getD_set_ne _ _ _ _ _ (hne _ _ hg hmC (by decide)),
          getD_set_ne _ _ _ _ _ (hne _ _ hp hmC (by decide)),
          getD_set_ne _ _ _ _ _ (hne _ _ hd hmC (by decide))]
      · rw [if_neg hg, getD_set_ne _ _ _ _ _ (hne _ _ hp hmC (by decide)),
          getD_set_ne _ _ _ _ _ (hne _ _ hd hmC (by decide))]
    · rw [if_neg hs]
      by_cases hg : "group" ∈ C
      · rw [if_pos hg, getD_set_ne _ _ _ _ _ (hne _ _ hg hmC (by decide)),
          getD_set_ne _ _ _ _ _ (hne _ _ hp hmC (by decide)),
          getD_set_ne _ _ _ _ _ (hne _ _ hd hmC (by decide))]
      · rw [if_neg hg, getD_set_ne _ _ _ _ _ (hne _ _ hp hmC (by decide)),
          getD_set_ne _ _ _ _ _ (hne _ _ hd hmC (by decide))]
  · -- group
    simp only [String.reduceEq, reduceIte]
    rw [if_pos hmC]
    by_cases hs : "session_id" ∈ C
    · rw [if_pos hs, getD_set_ne _ _ _ _ _ (hne _ _ hs hmC (by decide)),
        getD_set_self _ _ _ _ (by simpa using hlt _ hmC),
        getD_set_ne _ _ _ _ _ (hne _ _ hp hmC (by decide)),
        getD_set_ne _ _ _ _ _ (hne _ _ hd hmC (by decide))]
    · rw [if_neg hs, getD_set_self _ _ _ _ (by simpa using hlt _ hmC),
        getD_set_ne _ _ _ _ _ (hne _ _ hp hmC (by decide)),
        getD_set_ne _ _ _ _ _ (hne _ _ hd hmC (by decide))]
  · -- session_id
    simp only [String.reduceEq, reduceIte]
    rw [if_pos hmC]
    by_cases hg : "group" ∈ C
    · rw [if_pos hg, getD_set_self _ _ _ _ (by simpa using hlt _ hmC),
        getD_set_ne _ _ _ _ _ (hne _ _ hg hmC (by decide)),
        getD_set_ne _ _ _ _ _ (hne _ _ hp hmC (by decide)),
        getD_set_ne _ _ _ _ _ (hne _ _ hd hmC (by decide))]
    · rw [if_neg hg, getD_set_self _ _ _ _ (by simpa using hlt _ hmC),
        getD_set_ne _ _ _ _ _ (hne _ _ hp hmC (by decide)),
        getD_set_ne _ _ _ _ _ (hne _ _ hd hmC (by decide))]

/-- Column selection and row filtering over finish-transformed rows,
expressed row by row. -/
theorem dropna_select_finTransform (C : List String) (rows : List (List Cell))
    (hp : "player" ∈ C) (hd : "date" ∈ C) (hn : "net" ∈ C)
    (hR : ∀ r ∈ rows, r.length = C.length) :
    dropnaPDN (selectKeep ⟨C, rows.map (finTransform C)⟩) =
      ⟨fiveCols.filter (fun c => c ∈ C), (rows.filter (finKept C)).map (finRow C)⟩ := by
  have hrow : ∀ r : List Cell, r.length = C.length →
      (fiveCols.filter (fun c => c ∈ C)).map
        (fun name => (finTransform C r).getD (C.indexOf name) Cell.na) = finRow C r := by
    intro r hr
    refine List.map_congr_left (fun name hname => ?_)
    have hmem := List.mem_filter.mp hname
    exact finTransform_getD C r name hr hmem.1 (by simpa using hmem.2) hd hp
  have hK : ∀ name ∈ (["player", "date", "net"] : List String),
      name ∈ fiveCols.filter (fun c => c ∈ C) := by
    intro name hname
    fin_cases hname <;> simp [fiveCols, hp, hd, hn]
  have hkept : ∀ r : List Cell,
      (["player", "date", "net"].all (fun name =>
        if name ∈ fiveCols.filter (fun c => c ∈ C) then
          !isNA ((finRow C r).getD ((fiveCols.filter (fun c => c ∈ C)).indexOf name) Cell.na)
        else true)) = finKept C r := by
    intro r
    have hval : ∀ name ∈ (["player", "date", "net"] : List String),
        (finRow C r).getD ((fiveCols.filter (fun c => c ∈ C)).indexOf name) Cell.na =
          finCell C r name := by
      intro name hname
      exact getD_map_indexOf _ _ _ _ (hK name hname)
    simp only [List.all_cons, List.all_nil,
      if_pos (hK "player" (by decide)), if_pos (hK "date" (by decide)),
      if_pos (hK "net" (by decide)),
      hval "player" (by decide), hval "date" (by decide), hval "net" (by decide),
      Bool.and_true]
    unfold finKept
    rw [← Bool.and_assoc]
  unfold selectKeep dropnaPDN
  simp only [List.map_map]
  refine congrArg (Frame.mk _) ?_
  rw [List.filter_map]
  revert hR
  induction rows with
  | nil => intro _; rfl
  | cons r rs ih =>
    intro hR
    have hlen : r.length = C.length := hR r (by simp)
    have hRs : ∀ x ∈ rs, x.length = C.length := fun x hx => hR x (by simp [hx])
    simp only [List.filter_cons, List.map_cons, Function.comp]
    rw [hrow r hlen, hkept r]
    by_cases hk : finKept C r
    · rw [if_pos hk, if_pos hk]
      simp only [List.map_cons, Function.comp]
      rw [hrow r hlen, ih hRs]
    · rw [if_neg hk, if_neg hk, ih hRs]

/-- `finishFrame` row by row: select the standard columns that exist and
keep the rows passing the dropna gate. -/
theorem finishFrame_rowwise (C : List String) (rows : List (List Cell))
    (hN : C.Nodup) (hp : "player" ∈ C) (hd : "date" ∈ C) (hn : "net" ∈ C)
    (hR : ∀ r ∈ rows, r.length = C.length) :
    finishFrame ⟨C, rows⟩ =
      .ok ⟨fiveCols.filter (fun c => c ∈ C), (rows.filter (finKept C)).map (finRow C)⟩ := by
  have hRmap : ∀ (g : List Cell → List Cell), (∀ r, (g r).length = r.length) →
      ∀ x ∈ rows.map g, x.length = C.length := by
    intro g hg x hx
    obtain ⟨r, hr, rfl⟩ := List.mem_map.mp hx
    rw [hg r]
    exact hR r hr
  unfold finishFrame
  rw [getSeries_ok C rows "date" hN hd]
  simp only [exceptBind_ok]
  rw [setCol_map_self C rows "date" parseDateCell hd]
  rw [trimColE_mem C _ "player" hN hp]
  simp only [exceptBind_ok, List.map_map]
  rw [← dropna_select_finTransform C rows hp hd hn hR]
  by_cases hg : "group" ∈ C
  · rw [trimColE_mem C _ "group" hN hg]
    simp only [exceptBind_ok, List.map_map]
    by_cases hs : "session_id" ∈ C
    · rw [trimColE_mem C _ "session_id" hN hs]
      simp only [exceptBind_ok, List.map_map]
      refine congrArg (fun z => Except.ok (dropnaPDN (selectKeep (Frame.mk C z)))) ?_
      exact List.map_congr_left (fun r _ => by
        simp only [Function.comp, finTransform, hg, hs, if_true])
    · rw [trimColE_not_mem _ "session_id" hs]
      simp only [exceptBind_ok, List.map_map]
      refine congrArg (fun z => Except.ok (dropnaPDN (selectKeep (Frame.mk C z)))) ?_
      exact List.map_congr_left (fun r _ => by
        simp only [Function.comp, finTransform, hg, hs, if_true, if_false])
  · rw [trimColE_not_mem _ "group" hg]
    simp only [exceptBind_ok, List.map_map]
    by_cases hs : "session_id" ∈ C
    · rw [trimColE_mem C _ "session_id" hN hs]
      simp only [exceptBind_ok, List.map_map]
      refine congrArg (fun z => Except.ok (dropnaPDN (selectKeep (Frame.mk C z)))) ?_
      exact List.map_congr_left (fun r _ => by
        simp only [Function.comp, finTransform, hg, hs, if_true, if_false])
    · rw [trimColE_not_mem _ "session_id" hs]
      simp only [exceptBind_ok, List.map_map]
      refine congrArg (fun z => Except.ok (dropnaPDN (selectKeep (Frame.mk C z)))) ?_
      exact List.map_congr_left (fun r _ => by
        simp only [Function.comp, finTransform, hg, hs, if_false])

/-- The `net_direct` working row right before `finishFrame`: raw cells
injected, with the net cell numerically cleaned in place. -/
def ndNetSet (cs : List String) (r : List RawCell) : List Cell :=
  (r.map RawCell.toCell).set (cs.indexOf "net")
    (cleanNumericCell ((r.map RawCell.toCell).getD (cs.indexOf "net") Cell.na))

theorem toCell_na : RawCell.toCell RawCell.na = Cell.na := rfl

theorem getD_map_toCell (r : List RawCell) (i : ℕ) :
    (r.map RawCell.toCell).getD i Cell.na = RawCell.toCell (r.getD i RawCell.na) :=
  getD_map_of_default r RawCell.toCell i RawCell.na Cell.na rfl

theorem ndNetSet_cell (cs : List String) (r : List RawCell) (name : String)
    (hr : r.length = cs.length) (hfive : name ∈ fiveCols) (hmC : name ∈ cs)
    (hnm : "net" ∈ cs) :
    finCell cs (ndNetSet cs r) name = ndCell cs r name := by
  have hlen : (r.map RawCell.toCell).length = cs.length := by
    rw [List.length_map]; exact hr
  have hltNet : cs.indexOf "net" < (r.map RawCell.toCell).length := by
    rw [hlen]; exact List.indexOf_lt_length.mpr hnm
  unfold finCell ndCell ndNetSet rawAt
  fin_cases hfive
  · -- player
    simp only [String.reduceEq, reduceIte]
    rw [getD_set_ne _ _ _ _ _ (indexOf_ne_of_ne hnm hmC (by decide)), getD_map_toCell]
  · -- date
    simp only [String.reduceEq, reduceIte]
    rw [getD_set_ne _ _ _ _ _ (indexOf_ne_of_ne hnm hmC (by decide)), getD_map_toCell]
  · -- net
    simp only [String.reduceEq, reduceIte]
    rw [getD_set_self _ _ _ _ hltNet, getD_map_toCell]
  · -- group
    simp only [String.reduceEq, reduceIte]
    rw [getD_set_ne _ _ _ _ _ (indexOf_ne_of_ne hnm hmC (by decide)), getD_map_toCell]
  · -- session_id
    simp only [String.reduceEq, reduceIte]
    rw [getD_set_ne _ _ _ _ _ (indexOf_ne_of_ne hnm hmC (by decide)), getD_map_toCell]

theorem ndNetSet_kept (cs : List String) (r : List RawCell)
    (hr : r.length = cs.length) (hp : "player" ∈ cs) (hd : "date" ∈ cs)
    (hnm : "net" ∈ cs) :
    finKept cs (ndNetSet cs r) = ndKept cs r := by
  unfold finKept ndKept
  rw [ndNetSet_cell cs r "player" hr (by decide) hp hnm,
    ndNetSet_cell cs r "date" hr (by decide) hd hnm,
    ndNetSet_cell cs r "net" hr (by decide) hnm hnm]

theorem ndNetSet_row (cs : List String) (r : List RawCell)
    (hr : r.length = cs.length) (hnm : "net" ∈ cs) :
    finRow cs (ndNetSet cs r) = ndRow cs r := by
  unfold finRow ndRow
  refine List.map_congr_left (fun name hname => ?_)
  have hmem := List.mem_filter.mp hname
  exact ndNetSet_cell cs r name hr hmem.1 (by simpa using hmem.2) hnm

/-- `normalize_results_df`, `net_direct` arm, described row by row: the
result keeps the standard columns present in the standardized input and one
record per input row passing the player/date/net gate. -/
theorem normalize_netdirect_rowwise (df : RawFrame)
    (hRect : df.Rect) (hrows : df.rows ≠ []) (hcols : df.cols ≠ [])
    (hN : (df.cols.map stdName).Nodup)
    (hDet : detect_results_schema (df.cols.map stdName) = .net_direct) :
    normalize_results_df (some df) =
      .ok ⟨fiveCols.filter (fun c => c ∈ df.cols.map stdName),
        (df.rows.filter (ndKept (df.cols.map stdName))).map
          (ndRow (df.cols.map stdName))⟩ := by
  set cs := df.cols.map stdName with hcs
  have hDet' := hDet
  rw [detect_on_fixed cs (map_pyLower_map_stdName df.cols)] at hDet'
  have hmem : "player" ∈ cs ∧ "date" ∈ cs ∧ "net" ∈ cs := by
    by_cases h1 : "player" ∈ cs ∧ "date" ∈ cs ∧ "net" ∈ cs
    · exact h1
    · rw [if_neg h1] at hDet'
      split_ifs at hDet'
  obtain ⟨hp, hdm, hnm⟩ := hmem
  have hguard : ¬(df.rows.isEmpty ∨ df.cols.isEmpty) := by
    simp [List.isEmpty_iff, hrows, hcols]
  have hlens : ∀ r ∈ df.rows, r.length = cs.length := by
    intro r hr
    rw [hcs, List.length_map]
    exact hRect r hr
  simp only [normalize_results_df]
  rw [if_neg hguard]
  simp only [standardizeColumns, RawFrame.toFrame, ← hcs, hDet]
  rw [getSeries_ok cs _ "net" hN hnm]
  simp only [exceptBind_ok]
  rw [setCol_map_self cs _ "net" cleanNumericCell hnm]
  simp only [List.map_map]
  have hrw : (df.rows.map ((fun r =>
      r.set (cs.indexOf "net") (cleanNumericCell (r.getD (cs.indexOf "net") Cell.na))) ∘
        List.map RawCell.toCell)) = df.rows.map (ndNetSet cs) := by
    refine List.map_congr_left (fun r _ => ?_)
    simp only [Function.comp, ndNetSet]
  rw [hrw]
  rw [finishFrame_rowwise cs _ hN hp hdm hnm (by
    intro x hx
    obtain ⟨r, hr, rfl⟩ := List.mem_map.mp hx
    simp only [ndNetSet, List.length_set, List.length_map]
    exact hlens r hr)]
  refine congrArg (fun z => Except.ok (Frame.mk (fiveCols.filter (fun c => c ∈ cs)) z)) ?_
  rw [List.filter_map]
  rw [List.filter_congr (fun r hr => by
    simp only [Function.comp]
    exact ndNetSet_kept cs r (hlens r hr) hp hdm hnm), List.map_map]
  refine List.map_congr_left (fun r hr => ?_)
  simp only [Function.comp]
  exact ndNetSet_row cs r (hlens r (List.mem_of_mem_filter hr)) hnm

/-- The `buyin_cashout` working row right before `finishFrame`: raw cells
injected, buy_in and cash_out cleaned in place, and the appended net column
holding cleaned cash_out minus cleaned buy_in. -/
def bcNetSet (cs : List String) (r : List RawCell) : List Cell :=
  let rc := r.map RawCell.toCell
  let r1 := rc.set (cs.indexOf "buy_in")
    (cleanNumericCell (rc.getD (cs.indexOf "buy_in") Cell.na))
  let r2 := r1.set (cs.indexOf "cash_out")
    (cleanNumericCell (r1.getD (cs.indexOf "cash_out") Cell.na))
  r2 ++ [subCell (cleanNumericCell (r1.getD (cs.indexOf "cash_out") Cell.na))
    (cleanNumericCell (rc.getD (cs.indexOf "buy_in") Cell.na))]

theorem indexOf_net_append (cs : List String) (hnot : "net" ∉ cs) :
    (cs ++ ["net"]).indexOf "net" = cs.length := by
  rw [List.indexOf_append_of_not_mem hnot, List.indexOf_cons_self]
  omega

theorem getD_append_eq_len (l : List α) (x d : α) (n : ℕ) (h : l.length = n) :
    (l ++ [x]).getD n d = x := by
  subst h
  exact getD_append_len l x d

theorem bcNetSet_cell (cs : List String) (r : List RawCell) (name : String)
    (hr : r.length = cs.length) (hfive : name ∈ fiveCols)
    (hmC : name ∈ cs ++ ["net"]) (hB : "buy_in" ∈ cs) (hC : "cash_out" ∈ cs)
    (hnot : "net" ∉ cs) :
    finCell (cs ++ ["net"]) (bcNetSet cs r) name = bcCell cs r name := by
  have hlenrc : (r.map RawCell.toCell).length = cs.length := by
    rw [List.length_map]; exact hr
  have hlen2 : ((r.map RawCell.toCell).set (cs.indexOf "buy_in")
      (cleanNumericCell ((r.map RawCell.toCell).getD (cs.indexOf "buy_in") Cell.na))).length
        = cs.length := by
    rw [List.length_set]; exact hlenrc
  have hBC : cs.indexOf "buy_in" ≠ cs.indexOf "cash_out" :=
    indexOf_ne_of_ne hB hC (by decide)
  have hmem_of_ne : name ≠ "net" → name ∈ cs := by
    intro hne
    rcases List.mem_append.mp hmC with h | h
    · exact h
    · simp only [List.mem_singleton] at h
      exact absurd h hne
  unfold finCell bcCell bcNetSet rawAt
  fin_cases hfive
  · -- player
    have hm : "player" ∈ cs := hmem_of_ne (by decide)
    simp only [String.reduceEq, reduceIte]
    rw [List.indexOf_append_of_mem hm,
      getD_append_left _ _ _ _ (by rw [List.length_set, hlen2]; exact List.indexOf_lt_length.mpr hm),
      getD_set_ne _ _ _ _ _ (indexOf_ne_of_ne hC hm (by decide)),
      getD_set_ne _ _ _ _ _ (indexOf_ne_of_ne hB hm (by decide)),
      getD_map_toCell]
  · -- date
    have hm : "date" ∈ cs := hmem_of_ne (by decide)
    simp only [String.reduceEq, reduceIte]
    rw [List.indexOf_append_of_mem hm,
      getD_append_left _ _ _ _ (by rw [List.length_set, hlen2]; exact List.indexOf_lt_length.mpr hm),
      getD_set_ne _ _ _ _ _ (indexOf_ne_of_ne hC hm (by decide)),
      getD_set_ne _ _ _ _ _ (indexOf_ne_of_ne hB hm (by decide)),
      getD_map_toCell]
  · -- net
    simp only [String.reduceEq, reduceIte]
    rw [indexOf_net_append cs hnot,
      getD_append_eq_len _ _ _ _ (by rw [List.length_set, hlen2]),
      getD_set_ne _ _ _ _ _ hBC, getD_map_toCell, getD_map_toCell]
  · -- group
    have hm : "group" ∈ cs := hmem_of_ne (by decide)
    simp only [String.reduceEq, reduceIte]
    rw [List.indexOf_append_of_mem hm,
      getD_append_left _ _ _ _ (by rw [List.length_set, hlen2]; exact List.indexOf_lt_length.mpr hm),
      getD_set_ne _ _ _ _ _ (indexOf_ne_of_ne hC hm (by decide)),
      getD_set_ne _ _ _ _ _ (indexOf_ne_of_ne hB hm (by decide)),
      getD_map_toCell]
  · -- session_id
    have hm : "session_id" ∈ cs := hmem_of_ne (by decide)
    simp only [String.reduceEq, reduceIte]
    rw [List.indexOf_append_of_mem hm,
      getD_append_left _ _ _ _ (by rw [List.length_set, hlen2]; exact List.indexOf_lt_length.mpr hm),
      getD_set_ne _ _ _ _ _ (indexOf_ne_of_ne hC hm (by decide)),
      getD_set_ne _ _ _ _ _ (indexOf_ne_of_ne hB hm (by decide)),
      getD_map_toCell]

theorem bcNetSet_kept (cs : List String) (r : List RawCell)
    (hr : r.length = cs.length) (hp : "player" ∈ cs) (hd : "date" ∈ cs)
    (hB : "buy_in" ∈ cs) (hC : "cash_out" ∈ cs) (hnot : "net" ∉ cs) :
    finKept (cs ++ ["net"]) (bcNetSet cs r) = bcKept cs r := by
  unfold finKept bcKept
  rw [bcNetSet_cell cs r "player" hr (by decide) (List.mem_append_left _ hp) hB hC hnot,
    bcNetSet_cell cs r "date" hr (by decide) (List.mem_append_left _ hd) hB hC hnot,
    bcNetSet_cell cs r "net" hr (by decide) (List.mem_append_right _ (by decide)) hB hC hnot]

theorem bcNetSet_row (cs : List String) (r : List RawCell)
    (hr : r.length = cs.length) (hB : "buy_in" ∈ cs) (hC : "cash_out" ∈ cs)
    (hnot : "net" ∉ cs) :
    finRow (cs ++ ["net"]) (bcNetSet cs r) = bcRow cs r := by
  unfold finRow bcRow
  refine List.map_congr_left (fun name hname => ?_)
  have hmem := List.mem_filter.mp hname
  exact bcNetSet_cell cs r name hr hmem.1 (by simpa using hmem.2) hB hC hnot

/-- `normalize_results_df`, `buyin_cashout` arm, described row by row. -/
theorem normalize_buyin_rowwise (df : RawFrame)
    (hRect : df.Rect) (hrows : df.rows ≠ []) (hcols : df.cols ≠ [])
    (hN : (df.cols.map stdName).Nodup)
    (hDet : detect_results_schema (df.cols.map stdName) = .buyin_cashout) :
    normalize_results_df (some df) =
      .ok ⟨fiveCols.filter (fun c => c ∈ df.cols.map stdName ++ ["net"]),
        (df.rows.filter (bcKept (df.cols.map stdName))).map
          (bcRow (df.cols.map stdName))⟩ := by
  set cs := df.cols.map stdName with hcs
  have hDet' := hDet
  rw [detect_on_fixed cs (map_pyLower_map_stdName df.cols)] at hDet'
  have hmem : ¬("player" ∈ cs ∧ "date" ∈ cs ∧ "net" ∈ cs) ∧
      ("player" ∈ cs ∧ "date" ∈ cs ∧ "buy_in" ∈ cs ∧ "cash_out" ∈ cs) := by
    by_cases h1 : "player" ∈ cs ∧ "date" ∈ cs ∧ "net" ∈ cs
    · rw [if_pos h1] at hDet'
      exact Schema.noConfusion hDet'
    · rw [if_neg h1] at hDet'
      by_cases h2 : "player" ∈ cs ∧ "date" ∈ cs ∧ "buy_in" ∈ cs ∧ "cash_out" ∈ cs
      · exact ⟨h1, h2⟩
      · rw [if_neg h2] at hDet'
        exact Schema.noConfusion hDet'
  obtain ⟨h1, hp, hdm, hB, hC⟩ := hmem
  have hnot : "net" ∉ cs := fun hn => h1 ⟨hp, hdm, hn⟩
  have hguard : ¬(df.rows.isEmpty ∨ df.cols.isEmpty) := by
    simp [List.isEmpty_iff, hrows, hcols]
  have hlens : ∀ r ∈ df.rows, r.length = cs.length := by
    intro r hr
    rw [hcs, List.length_map]
    exact hRect r hr
  have hN2 : (cs ++ ["net"]).Nodup := by
    simp [List.nodup_append, hN, hnot]
  simp only [normalize_results_df]
  rw [if_neg hguard]
  simp only [standardizeColumns, RawFrame.toFrame, ← hcs, hDet]
  rw [getSeries_ok cs _ "buy_in" hN hB]
  simp only [exceptBind_ok]
  rw [setCol_map_self cs _ "buy_in" cleanNumericCell hB]
  rw [getSeries_ok cs _ "cash_out" hN hC]
  simp only [exceptBind_ok]
  rw [setCol_map_self cs _ "cash_out" cleanNumericCell hC]
  rw [setCol_append cs _ "net" _ hnot]
  simp only [List.map_map]
  rw [zipWith_map_map_same, zipWith_map_map_same]
  rw [List.map_congr_left (fun r (_ : r ∈ df.rows) => ?_), finishFrame_rowwise (cs ++ ["net"])
    (df.rows.map (bcNetSet cs)) hN2 (List.mem_append_left _ hp)
    (List.mem_append_left _ hdm) (List.mem_append_right _ (by decide)) (by
      intro x hx
      obtain ⟨r, hr, rfl⟩ := List.mem_map.mp hx
      simp only [bcNetSet, List.length_append, List.length_set, List.length_map,
        List.length_singleton]
      rw [hlens r hr])]
  · refine congrArg (fun z =>
      Except.ok (Frame.mk (fiveCols.filter (fun c => c ∈ cs ++ ["net"])) z)) ?_
    rw [List.filter_map]
    rw [List.filter_congr (fun r hr => by
      simp only [Function.comp]
      exact bcNetSet_kept cs r (hlens r hr) hp hdm hB hC hnot), List.map_map]
    refine List.map_congr_left (fun r hr => ?_)
    simp only [Function.comp]
    exact bcNetSet_row cs r (hlens r (List.mem_of_mem_filter hr)) hB hC hnot
  · simp only [Function.comp, bcNetSet]

/-! ## Degenerate inputs -/

theorem normalize_none : normalize_results_df none = .ok emptyDataset := rfl

theorem normalize_empty (df : RawFrame) (h : df.rows = [] ∨ df.cols = []) :
    normalize_results_df (some df) = .ok emptyDataset := by
  simp only [normalize_results_df]
  rw [if_pos]
  rcases h with h | h <;> simp [h]

theorem normalize_unknown (df : RawFrame)
    (hDet : detect_results_schema (df.cols.map stdName) = .unknown) :
    normalize_results_df (some df) = .ok emptyDataset := by
  by_cases hg : df.rows.isEmpty ∨ df.cols.isEmpty
  · apply normalize_empty
    rcases hg with h | h
    · exact Or.inl (by simpa [List.isEmpty_iff] using h)
    · exact Or.inr (by simpa [List.isEmpty_iff] using h)
  · simp only [normalize_results_df]
    rw [if_neg hg]
    simp only [standardizeColumns, RawFrame.toFrame, hDet]

instance : DecidableEq (Except String Frame) := fun a b =>
  match a, b with
  | .error x, .error y =>
    if h : x = y then isTrue (congrArg Except.error h)
    else isFalse (fun he => h (by cases he; rfl))
  | .ok x, .ok y =>
    if h : x = y then isTrue (congrArg Except.ok h)
    else isFalse (fun he => h (by cases he; rfl))
  | .error _, .ok _ => isFalse (fun he => by cases he)
  | .ok _, .error _ => isFalse (fun he => by cases he)

/-! ## Streaks (metrics engine)

Modelled from the spec: the streak-classification part of
`metrics.player_profile` (the `src/metrics.py` module is not among the
provided sources; only its caller `pages/2_Player_Profile.py` is).  The spec
(§4.2, Streak classification) prescribes a single pass over the player's
sessions in ascending chronological order carrying the current streak kind
and length and the longest win/loss run lengths; a session is a win if
net > 0, a loss if net < 0 and neutral if net == 0 exactly, and a neutral
session resets the current streak to neutral with length 0 (a hard reset,
not a skip) while leaving the longest counters unchanged. -/

inductive StreakKind
  | win
  | loss
  | neutral
deriving DecidableEq

structure StreakState where
  kind : StreakKind
  len : ℕ
  longest_win : ℕ
  longest_loss : ℕ
deriving DecidableEq

/-- Modelled from the spec (§4.2): win iff net > 0, loss iff net < 0,
neutral iff net == 0. -/
def classifySession (net : ℚ) : StreakKind :=
  if 0 < net then .win else if net < 0 then .loss else .neutral

/-- Modelled from the spec (§4.2): one step of the streak fold. -/
def streakStep (st : StreakState) (net : ℚ) : StreakState :=
  match classifySession net with
  | .neutral => ⟨.neutral, 0, st.longest_win, st.longest_loss⟩
  | .win =>
    let l := if st.kind = .win then st.len + 1 else 1
    ⟨.win, l, max st.longest_win l, st.longest_loss⟩
  | .loss =>
    let l := if st.kind = .loss then st.len + 1 else 1
    ⟨.loss, l, st.longest_win, max st.longest_loss l⟩

def initStreak : StreakState :=
  ⟨.neutral, 0, 0, 0⟩

/-- Modelled from the spec (§4.2, design note §9): a left fold over the
chronologically ordered net results. -/
def computeStreaks (nets : List ℚ) : StreakState :=
  nets.foldl streakStep initStreak

/-- Modelled from the spec (§4.2): the human label of the current streak,
"3 wins" / "1 loss" / "neutral". -/
def streakLabel (st : StreakState) : String :=
  match st.kind with
  | .neutral => "neutral"
  | .win => toString st.len ++ (if st.len = 1 then " win" else " wins")
  | .loss => toString st.len ++ (if st.len = 1 then " loss" else " losses")

/-! ## Heap model of `normalize_results_df`

`normalize_results_df` mutates its local `working` frame statement by
statement.  To state that the caller's DataFrame object is never mutated,
the function body is replayed over an explicit heap of frame objects:
variables are heap references, `df.copy()` allocates a fresh object, and
every column assignment writes through the `working` reference.
`normalizeOnHeap_spec` proves the heap run returns the same value as the
pure `normalize_results_df` and leaves every pre-existing object intact. -/

def heapGet (h : List Frame) (i : ℕ) : Frame :=
  h.getD i ⟨[], []⟩

def heapSet (h : List Frame) (i : ℕ) (v : Frame) : List Frame :=
  h.set i v

/-- The finishing statements of `normalize_results_df` replayed on the
heap: date parsing, the trimming loop, selection, and dropna (the last two
build a new frame and write nothing). -/
def finishOnHeap (h : List Frame) (w : ℕ) : List Frame × Except String Frame :=
  match getSeries (heapGet h w) "date" with
  | .error e => (h, .error e)
  | .ok dcol =>
    let h1 := heapSet h w (setCol (heapGet h w) "date" (dcol.map parseDateCell))
    match trimColE (heapGet h1 w) "player" with
    | .error e => (h1, .error e)
    | .ok w2 =>
      let h2 := heapSet h1 w w2
      match trimColE (heapGet h2 w) "group" with
      | .error e => (h2, .error e)
      | .ok w3 =>
        let h3 := heapSet h2 w w3
        match trimColE (heapGet h3 w) "session_id" with
        | .error e => (h3, .error e)
        | .ok w4 =>
          let h4 := heapSet h3 w w4
          (h4, .ok (dropnaPDN (selectKeep (heapGet h4 w))))

/-- `normalize_results_df` replayed on a heap whose slot `dfRef` holds the
caller's DataFrame.  `working = df.copy()` allocates a deep copy at the end
of the heap; every subsequent write goes to that fresh reference. -/
def normalizeOnHeap (h : List Frame) (dfRef : ℕ) : List Frame × Except String Frame :=
  let df := heapGet h dfRef
  if df.rows.isEmpty ∨ df.cols.isEmpty then (h, .ok emptyDataset)
  else
    let wRef := h.length
    let h1 := h ++ [df]
    let h2 := heapSet h1 wRef (standardizeColumns (heapGet h1 wRef))
    match detect_results_schema (heapGet h2 wRef).cols with
    | .unknown => (h2, .ok emptyDataset)
    | .net_direct =>
      match getSeries (heapGet h2 wRef) "net" with
      | .error e => (h2, .error e)
      | .ok ncol =>
        let h3 := heapSet h2 wRef (setCol (heapGet h2 wRef) "net" (ncol.map cleanNumericCell))
        finishOnHeap h3 wRef
    | .buyin_cashout =>
      match getSeries (heapGet h2 wRef) "buy_in" with
      | .error e => (h2, .error e)
      | .ok bcol =>
        let bclean := bcol.map cleanNumericCell
        let h3 := heapSet h2 wRef (setCol (heapGet h2 wRef) "buy_in" bclean)
        match getSeries (heapGet h3 wRef) "cash_out" with
        | .error e => (h3, .error e)
        | .ok ccol =>
          let cclean := ccol.map cleanNumericCell
          let h4 := heapSet h3 wRef (setCol (heapGet h3 wRef) "cash_out" cclean)
          let h5 := heapSet h4 wRef
            (setCol (heapGet h4 wRef) "net" (List.zipWith subCell cclean bclean))
          finishOnHeap h5 wRef

theorem heapGet_heapSet_self (h : List Frame) (w : ℕ) (v : Frame) (hlt : w < h.length) :
    heapGet (heapSet h w v) w = v :=
  getD_set_self h w v _ hlt

theorem heapGet_heapSet_ne (h : List Frame) (w j : ℕ) (v : Frame) (hne : w ≠ j) :
    heapGet (heapSet h w v) j = heapGet h j :=
  getD_set_ne h w j v _ hne

theorem heapSet_length (h : List Frame) (w : ℕ) (v : Frame) :
    (heapSet h w v).length = h.length :=
  List.length_set h w v

theorem finishOnHeap_spec (h : List Frame) (w : ℕ) (hlt : w < h.length) :
    (∀ j, j ≠ w → heapGet (finishOnHeap h w).1 j = heapGet h j) ∧
    (finishOnHeap h w).2 = finishFrame (heapGet h w) := by
  unfold finishOnHeap finishFrame
  cases hd : getSeries (heapGet h w) "date" with
  | error e => exact ⟨fun j hj => rfl, rfl⟩
  | ok dcol =>
    simp only [exceptBind_ok]
    rw [heapGet_heapSet_self h w _ hlt]
    cases hp : trimColE (setCol (heapGet h w) "date" (dcol.map parseDateCell)) "player" with
    | error e =>
      exact ⟨fun j hj => heapGet_heapSet_ne h w j _ (Ne.symm hj), rfl⟩
    | ok w2 =>
      simp only [exceptBind_ok]
      rw [heapGet_heapSet_self _ w _ (by rw [heapSet_length]; exact hlt)]
      cases hg : trimColE w2 "group" with
      | error e =>
        refine ⟨fun j hj => ?_, rfl⟩
        rw [heapGet_heapSet_ne _ w j _ (Ne.symm hj), heapGet_heapSet_ne _ w j _ (Ne.symm hj)]
      | ok w3 =>
        simp only [exceptBind_ok]
        rw [heapGet_heapSet_self _ w _ (by rw [heapSet_length, heapSet_length]; exact hlt)]
        cases hs : trimColE w3 "session_id" with
        | error e =>
          refine ⟨fun j hj => ?_, rfl⟩
          rw [heapGet_heapSet_ne _ w j _ (Ne.symm hj), heapGet_heapSet_ne _ w j _ (Ne.symm hj),
            heapGet_heapSet_ne _ w j _ (Ne.symm hj)]
        | ok w4 =>
          simp only [exceptBind_ok]
          rw [heapGet_heapSet_self _ w _
            (by rw [heapSet_length, heapSet_length, heapSet_length]; exact hlt)]
          refine ⟨fun j hj => ?_, rfl⟩
          rw [heapGet_heapSet_ne _ w j _ (Ne.symm hj), heapGet_heapSet_ne _ w j _ (Ne.symm hj),
            heapGet_heapSet_ne _ w j _ (Ne.symm hj), heapGet_heapSet_ne _ w j _ (Ne.symm hj)]

theorem isEmpty_map (l : List α) (f : α → β) : (l.map f).isEmpty = l.isEmpty := by
  cases l <;> rfl

theorem heapGet_append_lt (h : List Frame) (x : Frame) (j : ℕ) (hj : j < h.length) :
    heapGet (h ++ [x]) j = heapGet h j :=
  getD_append_left h [x] j _ hj

theorem heapGet_append_len (h : List Frame) (x : Frame) :
    heapGet (h ++ [x]) h.length = x :=
  getD_append_len h x _

/-- Running `normalize_results_df` through the heap model returns the same
value as the pure function and leaves every pre-existing heap object — in
particular the caller's DataFrame — unchanged: all writes go to the fresh
copy allocated by `working = df.copy()`. -/
theorem normalizeOnHeap_spec (h : List Frame) (df : RawFrame) (dfRef : ℕ)
    (hdf : heapGet h dfRef = df.toFrame) :
    (∀ j, j < h.length → heapGet (normalizeOnHeap h dfRef).1 j = heapGet h j) ∧
    (normalizeOnHeap h dfRef).2 = normalize_results_df (some df) := by
  have hwne : ∀ j, j < h.length → h.length ≠ j := fun j hj => (Nat.ne_of_lt hj).symm
  have hpres2 : ∀ j, j < h.length →
      heapGet (heapSet (h ++ [df.toFrame]) h.length (standardizeColumns df.toFrame)) j =
        heapGet h j := by
    intro j hj
    rw [heapGet_heapSet_ne _ _ _ _ (hwne j hj), heapGet_append_lt h _ j hj]
  have hlen2 : (heapSet (h ++ [df.toFrame]) h.length
      (standardizeColumns df.toFrame)).length = h.length + 1 := by
    rw [heapSet_length, List.length_append, List.length_singleton]
  unfold normalizeOnHeap
  simp only [normalize_results_df]
  rw [hdf]
  by_cases hguard : df.rows.isEmpty ∨ df.cols.isEmpty
  · rw [if_pos (by simpa [RawFrame.toFrame, isEmpty_map] using hguard), if_pos hguard]
    exact ⟨fun j _ => rfl, rfl⟩
  · rw [if_neg (by simpa [RawFrame.toFrame, isEmpty_map] using hguard), if_neg hguard]
    rw [heapGet_append_len h df.toFrame,
      heapGet_heapSet_self (h ++ [df.toFrame]) h.length (standardizeColumns df.toFrame)
        (by rw [List.length_append, List.length_singleton]; omega)]
    cases hdet : detect_results_schema (standardizeColumns df.toFrame).cols with
    | unknown => exact ⟨hpres2, rfl⟩
    | net_direct =>
      cases hser : getSeries (standardizeColumns df.toFrame) "net" with
      | error e => exact ⟨hpres2, rfl⟩
      | ok ncol =>
        simp only [exceptBind_ok]
        have hfin := finishOnHeap_spec
          (heapSet (heapSet (h ++ [df.toFrame]) h.length
            (standardizeColumns df.toFrame)) h.length
            (setCol (standardizeColumns df.toFrame) "net" (ncol.map cleanNumericCell)))
          h.length (by simp only [heapSet_length, List.length_append, List.length_singleton]; omega)
        refine ⟨fun j hj => ?_, ?_⟩
        · rw [hfin.1 j (Ne.symm (hwne j hj)), heapGet_heapSet_ne _ _ _ _ (hwne j hj)]
          exact hpres2 j hj
        · rw [hfin.2, heapGet_heapSet_self
            (heapSet (h ++ [df.toFrame]) h.length (standardizeColumns df.toFrame)) h.length
            (setCol (standardizeColumns df.toFrame) "net" (ncol.map cleanNumericCell))
            (by simp only [heapSet_length, List.length_append, List.length_singleton]; omega)]
    | buyin_cashout =>
      cases hser : getSeries (standardizeColumns df.toFrame) "buy_in" with
      | error e => exact ⟨hpres2, rfl⟩
      | ok bcol =>
        simp only [exceptBind_ok]
        rw [heapGet_heapSet_self _ _ _ (by simp only [heapSet_length, List.length_append, List.length_singleton]; omega)]
        cases hser2 : getSeries (setCol (standardizeColumns df.toFrame) "buy_in"
            (bcol.map cleanNumericCell)) "cash_out" with
        | error e =>
          refine ⟨fun j hj => ?_, rfl⟩
          rw [heapGet_heapSet_ne _ _ _ _ (hwne j hj)]
          exact hpres2 j hj
        | ok ccol =>
          simp only [exceptBind_ok]
          rw [heapGet_heapSet_self
            (heapSet (heapSet (h ++ [df.toFrame]) h.length (standardizeColumns df.toFrame))
              h.length
              (setCol (standardizeColumns df.toFrame) "buy_in" (bcol.map cleanNumericCell)))
            h.length
            (setCol (setCol (standardizeColumns df.toFrame) "buy_in"
              (bcol.map cleanNumericCell)) "cash_out" (ccol.map cleanNumericCell))
            (by simp only [heapSet_length, List.length_append, List.length_singleton]; omega)]
          have hfin := finishOnHeap_spec
            (heapSet (heapSet (heapSet (heapSet (h ++ [df.toFrame]) h.length
              (standardizeColumns df.toFrame)) h.length
              (setCol (standardizeColumns df.toFrame) "buy_in" (bcol.map cleanNumericCell)))
              h.length
              (setCol (setCol (standardizeColumns df.toFrame) "buy_in"
                (bcol.map cleanNumericCell)) "cash_out" (ccol.map cleanNumericCell)))
              h.length
              (setCol (setCol (setCol (standardizeColumns df.toFrame) "buy_in"
                (bcol.map cleanNumericCell)) "cash_out" (ccol.map cleanNumericCell)) "net"
                (List.zipWith subCell (ccol.map cleanNumericCell) (bcol.map cleanNumericCell))))
            h.length
            (by simp only [heapSet_length, List.length_append, List.length_singleton]; omega)
          refine ⟨fun j hj => ?_, ?_⟩
          · rw [hfin.1 j (Ne.symm (hwne j hj)),
              heapGet_heapSet_ne _ _ _ _ (hwne j hj),
              heapGet_heapSet_ne _ _ _ _ (hwne j hj),
              heapGet_heapSet_ne _ _ _ _ (hwne j hj)]
            exact hpres2 j hj
          · rw [hfin.2, heapGet_heapSet_self
              (heapSet (heapSet (heapSet (h ++ [df.toFrame]) h.length
                (standardizeColumns df.toFrame)) h.length
                (setCol (standardizeColumns df.toFrame) "buy_in" (bcol.map cleanNumericCell)))
                h.length
                (setCol (setCol (standardizeColumns df.toFrame) "buy_in"
                  (bcol.map cleanNumericCell)) "cash_out" (ccol.map cleanNumericCell)))
              h.length
              (setCol (setCol (setCol (standardizeColumns df.toFrame) "buy_in"
                (bcol.map cleanNumericCell)) "cash_out" (ccol.map cleanNumericCell)) "net"
                (List.zipWith subCell (ccol.map cleanNumericCell) (bcol.map cleanNumericCell)))
              (by simp only [heapSet_length, List.length_append, List.length_singleton]; omega)]

/-- Schema detection as `normalize_results_df` performs it: standardize the
column names (`str(c).strip().lower()`), then run `detect_results_schema`. -/
def detectStd (cols : List String) : Schema :=
  detect_results_schema (cols.map stdName)

/-! ## Claims -/

/-- C5: schema detection (as performed inside normalization, on
case/whitespace-standardized names) is a pure function of the
column-name set only: same standardized name set — whatever the order,
multiplicity, or extra columns — same classification; the rule is
`net_direct` for a superset of player/date/net, else `buyin_cashout` for a
superset of player/date/buy_in/cash_out, else `unknown`; in particular
{Player, " Date ", Net} classifies as `net_direct` and
{player, date, score} as `unknown`. -/
theorem claim_C5_schema_detection :
    (∀ c1 c2 : List String, c1.map stdName ⊆ c2.map stdName →
      c2.map stdName ⊆ c1.map stdName → detectStd c1 = detectStd c2) ∧
    (∀ cols : List String, detectStd cols =
      (if "player" ∈ cols.map stdName ∧ "date" ∈ cols.map stdName ∧
          "net" ∈ cols.map stdName then Schema.net_direct
        else if "player" ∈ cols.map stdName ∧ "date" ∈ cols.map stdName ∧
          "buy_in" ∈ cols.map stdName ∧ "cash_out" ∈ cols.map stdName then
          Schema.buyin_cashout
        else Schema.unknown)) ∧
    detectStd ["Player", " Date ", "Net"] = Schema.net_direct ∧
    detectStd ["player", "date", "buy_in", "cash_out"] = Schema.buyin_cashout ∧
    detectStd ["player", "date", "score"] = Schema.unknown ∧
    detectStd ["net", "extra_column", "date", "player"] = Schema.net_direct := by
  have hchar : ∀ cols : List String, detectStd cols =
      (if "player" ∈ cols.map stdName ∧ "date" ∈ cols.map stdName ∧
          "net" ∈ cols.map stdName then Schema.net_direct
        else if "player" ∈ cols.map stdName ∧ "date" ∈ cols.map stdName ∧
          "buy_in" ∈ cols.map stdName ∧ "cash_out" ∈ cols.map stdName then
          Schema.buyin_cashout
        else Schema.unknown) := fun cols =>
    detect_on_fixed (cols.map stdName) (map_pyLower_map_stdName cols)
  refine ⟨fun c1 c2 h12 h21 => ?_, hchar, by decide, by decide, by decide, by decide⟩
  have hiff : ∀ s : String, s ∈ c1.map stdName ↔ s ∈ c2.map stdName :=
    fun s => ⟨fun hs => h12 hs, fun hs => h21 hs⟩
  rw [hchar c1, hchar c2]
  simp only [hiff "player", hiff "date", hiff "net", hiff "buy_in", hiff "cash_out"]

/-- Witness for C5: the set-function property applied to the same column
set in a different order and with different multiplicities. -/
theorem claim_C5_schema_detection_witness :
    detectStd ["Net", "Player", "Date", "Player"] = detectStd ["player", "date", "net"] :=
  claim_C5_schema_detection.1 ["Net", "Player", "Date", "Player"]
    ["player", "date", "net"] (by decide) (by decide)

/-- C9: `detect_results_schema` called directly lowercases column names but
does not trim, so a padded name like " player " defeats detection
(`unknown`), while `normalize_results_df` strips and lowercases before
detecting and treats the same table as `net_direct`; detection is otherwise
insensitive to (further) lowercasing. -/
theorem claim_C9_detect_whitespace :
    detect_results_schema [" player ", "date", "net"] = Schema.unknown ∧
    normalize_results_df (some ⟨[" player ", "date", "net"],
      [[.text "Ann", .text "01/02/2024", .text "5"]]⟩) =
      .ok ⟨["player", "date", "net"],
        [[.text "Ann", .date ⟨2024, 2, 1⟩, .num 5]]⟩ ∧
    (∀ cols : List String,
      detect_results_schema (cols.map pyLower) = detect_results_schema cols) := by
  refine ⟨by decide, by decide, fun cols => ?_⟩
  unfold detect_results_schema
  simp only [List.map_map]
  rw [List.map_congr_left (fun s (_ : s ∈ cols) =>
    show (pyLower ∘ pyLower) s = pyLower s from pyLower_idem s)]

/-- C7: streak classification over chronologically ordered nets marks
win iff net > 0, loss iff net < 0, neutral iff net == 0; a neutral session
is a hard reset of the current streak to neutral with length 0 (longest
counters preserved), not a skip; the chronological sequence
[+10, +5, -3, -1, +2] yields current streak "1 win" with longest_win = 2
and longest_loss = 2; and zero sessions give current = neutral/0 with
longest_win = longest_loss = 0, never an error. -/
theorem claim_C7_streaks :
    (∀ net : ℚ, classifySession net =
      (if 0 < net then StreakKind.win
        else if net < 0 then StreakKind.loss else StreakKind.neutral)) ∧
    (∀ st : StreakState,
      streakStep st 0 = ⟨.neutral, 0, st.longest_win, st.longest_loss⟩) ∧
    computeStreaks [] = ⟨.neutral, 0, 0, 0⟩ ∧
    computeStreaks [10, 5, -3, -1, 2] = ⟨.win, 1, 2, 2⟩ ∧
    streakLabel (computeStreaks [10, 5, -3, -1, 2]) = "1 win" ∧
    computeStreaks [1, 1, 0] = ⟨.neutral, 0, 2, 0⟩ ∧
    computeStreaks [1, 1, 0, 1] = ⟨.win, 1, 2, 0⟩ := by
  refine ⟨fun net => rfl, fun st => ?_, by decide, by decide, by decide, by decide, by decide⟩
  unfold streakStep
  rw [show classifySession (0 : ℚ) = .neutral from by decide]

theorem splitAtClose_append (l rest : List Char) (h : ∀ c ∈ l, c ≠ ')') :
    splitAtClose (l ++ ')' :: rest) = some (l, rest) := by
  induction l with
  | nil => simp [splitAtClose]
  | cons c cl ih =>
    have hc : c ≠ ')' := h c (by simp)
    simp only [List.cons_append, splitAtClose, if_neg hc]
    rw [show cl.append (')' :: rest) = cl ++ ')' :: rest from rfl,
      ih (fun x hx => h x (by simp [hx]))]
    rfl

theorem parenSubFuel_nil (fuel : ℕ) : parenSubFuel fuel [] = [] := by
  cases fuel <;> rfl

/-- An accounting-style parenthesized group — nonempty, no nested close —
is rewritten to a leading minus sign, before any character stripping. -/
theorem parenSub_wrap (l : List Char) (hne : l ≠ []) (h : ∀ c ∈ l, c ≠ ')') :
    parenSub ('(' :: l ++ [')']) = '-' :: l := by
  unfold parenSub
  simp only [List.length_cons, List.length_append, List.length_singleton]
  show parenSubFuel (l.length + 1 + 1) ('(' :: (l ++ [')'])) = '-' :: l
  rw [show (l ++ [')'] : List Char) = l ++ ')' :: [] from rfl]
  simp only [parenSubFuel, reduceIte, splitAtClose_append l [] h,
    List.isEmpty_eq_true, if_neg hne, parenSubFuel_nil, List.append_nil]

/-- C4: the numeric cleaning step converts an accounting-style
parenthesized negative into a leading minus before stripping currency
symbols, removes every character that is not a digit, decimal point, or
minus sign, treats the resulting empty string as missing, and turns a
coercion failure into a missing value; "(25.50)" cleans to -25.5 and
"$1,234.00" cleans to 1234.0, while a missing cell stays missing. -/
theorem claim_C4_numeric_cleaning :
    cleanNumericCell (.text "(25.50)") = .num (-25.5) ∧
    cleanNumericCell (.text "$1,234.00") = .num 1234 ∧
    cleanNumericCell Cell.na = Cell.na ∧
    cleanNumericCell (.text "") = Cell.na ∧
    cleanNumericCell (.text "abc") = Cell.na ∧
    cleanNumericCell (.text "1.2.3") = Cell.na ∧
    (∀ l : List Char, l ≠ [] → (∀ c ∈ l, c ≠ ')') →
      parenSub ('(' :: l ++ [')']) = '-' :: l) := by
  refine ⟨?_, by decide, by decide, by decide, by decide, by decide, parenSub_wrap⟩
  have h : cleanNumericCell (.text "(25.50)") = .num (mkRat (-2550) 100) := by decide
  rw [h]
  congr 1
  rw [Rat.mkRat_eq_div]
  norm_num

/-- Witness for C4: the parenthesized-negative rewriting applied to the
concrete content "25.50". -/
theorem claim_C4_numeric_cleaning_witness :
    parenSub ('(' :: "25.50".toList ++ [')']) = '-' :: "25.50".toList :=
  claim_C4_numeric_cleaning.2.2.2.2.2.2 "25.50".toList (by decide) (by decide)

/-- C1 (code divergence): a row whose player cell is missing, or blank
after trimming, is NOT excluded from the canonical Dataset.
`working["player"].astype(str)` turns NaN into the non-missing string
"nan" (and strips a blank to "") before `dropna(subset=["player", ...])`
runs, so the player clause of the dropna gate never fires and the records
appear with placeholder players "nan" and "". -/
theorem claim_C1_missing_player_kept :
    normalize_results_df (some ⟨["player", "date", "net"],
      [[RawCell.na, .text "01/02/2024", .text "5"],
       [.text "  ", .text "02/02/2024", .text "7"]]⟩) =
    .ok ⟨["player", "date", "net"],
      [[.text "nan", .date ⟨2024, 2, 1⟩, .num 5],
       [.text "", .date ⟨2024, 2, 2⟩, .num 7]]⟩ := by
  decide

/-- C2 (counterexample): `normalize_results_df` does not always return a
Dataset.  With columns Net and net — distinct labels that collide after
standardization — detection still reports `net_direct`, and
`working["net"]` is then a two-column selection on which the Series-only
cleaning chain raises (modelled as the error value), so the call raises
instead of returning a Dataset. -/
theorem claim_C2_counterexample :
    normalize_results_df (some ⟨["player", "date", "Net", "net"],
      [[.text "A", .text "01/02/2024", .text "1", .text "2"]]⟩) =
    .error "ambiguous column: net" := by
  decide

/-- C2 (amended): for a None or empty input, for an unrecognized schema,
and for every rectangular input whose standardized column names are free of
duplicates, `normalize_results_df` returns a Dataset (never an error)
whose columns are restricted to player/date/net/group/session_id, and the
degenerate cases yield the empty Dataset. -/
theorem claim_C2_no_raise :
    normalize_results_df none = .ok emptyDataset ∧
    (∀ df : RawFrame, df.rows = [] ∨ df.cols = [] →
      normalize_results_df (some df) = .ok emptyDataset) ∧
    (∀ df : RawFrame, detect_results_schema (df.cols.map stdName) = .unknown →
      normalize_results_df (some df) = .ok emptyDataset) ∧
    (∀ df : RawFrame, df.Rect → (df.cols.map stdName).Nodup →
      ∃ out : Frame, normalize_results_df (some df) = .ok out ∧ out.cols ⊆ fiveCols) := by
  refine ⟨normalize_none, normalize_empty, normalize_unknown, fun df hRect hN => ?_⟩
  by_cases hrows : df.rows = []
  · exact ⟨emptyDataset, normalize_empty df (Or.inl hrows), List.Subset.refl _⟩
  · by_cases hcols : df.cols = []
    · exact ⟨emptyDataset, normalize_empty df (Or.inr hcols), List.Subset.refl _⟩
    · cases hdet : detect_results_schema (df.cols.map stdName) with
      | unknown => exact ⟨emptyDataset, normalize_unknown df hdet, List.Subset.refl _⟩
      | net_direct =>
        refine ⟨_, normalize_netdirect_rowwise df hRect hrows hcols hN hdet, ?_⟩
        simp
      | buyin_cashout =>
        refine ⟨_, normalize_buyin_rowwise df hRect hrows hcols hN hdet, ?_⟩
        simp

/-- Witness for C2 (amended): a table with an unrecognized schema yields a
Dataset with standard columns. -/
theorem claim_C2_no_raise_witness :
    ∃ out : Frame, normalize_results_df (some ⟨["player", "date", "score"],
      [[.text "A", .text "01/02/2024", .text "3"]]⟩) = .ok out ∧
      out.cols ⊆ fiveCols :=
  claim_C2_no_raise.2.2.2 ⟨["player", "date", "score"],
    [[.text "A", .text "01/02/2024", .text "3"]]⟩ (by decide) (by decide)

/-- C3: under the `buyin_cashout` schema every admitted record's net is
the cleaned cash_out minus the cleaned buy_in of its own row (`bcCell`
computes the net entry as `subCell (clean cash_out) (clean buy_in)` and
`subCell` on two numbers is exact subtraction), a missing value on either
side propagates to a missing net so the row is dropped rather than the
missing side being treated as zero, and buy_in=100 / cash_out=150
round-trips to net=50. -/
theorem claim_C3_buyin_net :
    (∀ df : RawFrame, df.Rect → df.rows ≠ [] → df.cols ≠ [] →
      (df.cols.map stdName).Nodup →
      detect_results_schema (df.cols.map stdName) = .buyin_cashout →
      normalize_results_df (some df) =
        .ok ⟨fiveCols.filter (fun c => c ∈ df.cols.map stdName ++ ["net"]),
          (df.rows.filter (bcKept (df.cols.map stdName))).map
            (bcRow (df.cols.map stdName))⟩) ∧
    (∀ a b : ℚ, subCell (.num a) (.num b) = .num (a - b)) ∧
    (∀ c : Cell, subCell c Cell.na = Cell.na) ∧
    (∀ c : Cell, subCell Cell.na c = Cell.na) ∧
    normalize_results_df (some ⟨["player", "date", "buy_in", "cash_out"],
      [[.text "Alice", .text "01/02/2024", .text "100", .text "150"],
       [.text "Bob", .text "01/02/2024", RawCell.na, .text "150"]]⟩) =
      .ok ⟨["player", "date", "net"],
        [[.text "Alice", .date ⟨2024, 2, 1⟩, .num 50]]⟩ := by
  refine ⟨normalize_buyin_rowwise, fun a b => ?_, fun c => ?_, fun c => ?_, by decide⟩
  · show Cell.num (ratSub a b) = Cell.num (a - b)
    rw [ratSub_eq_sub]
  · cases c <;> rfl
  · cases c <;> rfl

/-- Witness for C3: the row-wise description applied to a concrete
two-row buyin/cashout table. -/
theorem claim_C3_buyin_net_witness :
    normalize_results_df (some ⟨["player", "date", "buy_in", "cash_out"],
      [[.text "Alice", .text "01/02/2024", .text "100", .text "150"],
       [.text "Bob", .text "01/02/2024", RawCell.na, .text "150"]]⟩) =
      .ok ⟨fiveCols.filter (fun c =>
          c ∈ ["player", "date", "buy_in", "cash_out"].map stdName ++ ["net"]),
        ([[.text "Alice", .text "01/02/2024", .text "100", .text "150"],
          [.text "Bob", .text "01/02/2024", RawCell.na, .text "150"]].filter
            (bcKept (["player", "date", "buy_in", "cash_out"].map stdName))).map
          (bcRow (["player", "date", "buy_in", "cash_out"].map stdName))⟩ :=
  claim_C3_buyin_net.1 ⟨["player", "date", "buy_in", "cash_out"],
    [[.text "Alice", .text "01/02/2024", .text "100", .text "150"],
     [.text "Bob", .text "01/02/2024", RawCell.na, .text "150"]]⟩
    (by decide) (by decide) (by decide) (by decide) (by decide)

/-- C8 (code divergence): a bad date or a bad numeric cell silently
excludes only the offending row — every other row normalizes to exactly
the same record with or without the defective rows, and the pass returns
normally — but a missing player does NOT exclude the row: it is retained
with the placeholder player "nan" (same astype(str)-before-dropna slip as
C1). -/
theorem claim_C8_partial_row_defects :
    (normalize_results_df (some ⟨["player", "date", "net"],
      [[.text "Ann", .text "01/02/2024", .text "3"],
       [.text "Bob", .text "not-a-date", .text "4"],
       [.text "Cara", .text "02/02/2024", .text "7"],
       [.text "Dan", .text "03/02/2024", .text "oops"]]⟩) =
      .ok ⟨["player", "date", "net"],
        [[.text "Ann", .date ⟨2024, 2, 1⟩, .num 3],
         [.text "Cara", .date ⟨2024, 2, 2⟩, .num 7]]⟩ ∧
     normalize_results_df (some ⟨["player", "date", "net"],
      [[.text "Ann", .text "01/02/2024", .text "3"],
       [.text "Cara", .text "02/02/2024", .text "7"]]⟩) =
      .ok ⟨["player", "date", "net"],
        [[.text "Ann", .date ⟨2024, 2, 1⟩, .num 3],
         [.text "Cara", .date ⟨2024, 2, 2⟩, .num 7]]⟩) ∧
    normalize_results_df (some ⟨["player", "date", "net"],
      [[.text "Ann", .text "01/02/2024", .text "3"],
       [RawCell.na, .text "02/02/2024", .text "7"]]⟩) =
      .ok ⟨["player", "date", "net"],
        [[.text "Ann", .date ⟨2024, 2, 1⟩, .num 3],
         [.text "nan", .date ⟨2024, 2, 2⟩, .num 7]]⟩ := by
  exact ⟨⟨by decide, by decide⟩, by decide⟩

/-- C10: replaying `normalize_results_df` on an explicit heap of DataFrame
objects, the caller's DataFrame at `dfRef` is bit-for-bit unchanged after
the call — all cleaning happens on the `df.copy()` allocation — and the
returned value is exactly the pure `normalize_results_df` result. -/
theorem claim_C10_no_mutation (h : List Frame) (df : RawFrame) (dfRef : ℕ)
    (hlt : dfRef < h.length) (hdf : heapGet h dfRef = df.toFrame) :
    heapGet (normalizeOnHeap h dfRef).1 dfRef = df.toFrame ∧
    (normalizeOnHeap h dfRef).2 = normalize_results_df (some df) := by
  have hspec := normalizeOnHeap_spec h df dfRef hdf
  exact ⟨by rw [hspec.1 dfRef hlt, hdf], hspec.2⟩

theorem parseDateCell_na_or_date (c : Cell) :
    parseDateCell c = Cell.na ∨ ∃ d : PDate, parseDateCell c = Cell.date d := by
  cases c with
  | na => exact Or.inl rfl
  | num q => exact Or.inl rfl
  | date d => exact Or.inr ⟨d, rfl⟩
  | text s =>
    have hred : parseDateCell (.text s) =
        (match parseDateString s with
          | some d => Cell.date d
          | none => Cell.na) := rfl
    rw [hred]
    cases hp : parseDateString s with
    | none => exact Or.inl rfl
    | some d => exact Or.inr ⟨d, rfl⟩

theorem ndCell_date (cs : List String) (r : List RawCell) :
    ndCell cs r "date" = parseDateCell (rawAt cs r "date") := by
  unfold ndCell
  rw [if_pos rfl]

/-- C6: date parsing resolves day-before-month ambiguity by preferring the
day/month/year reading ("03/04/2024" parses to 3 April 2024); an
unparseable date cell yields a missing date (NaT); and under the
`net_direct` schema every record of the canonical Dataset carries a parsed
date — a row whose date cell failed to parse is dropped, as the concrete
two-row table (one row "not-a-date") shows. -/
theorem claim_C6_date_parsing :
    parseDateString "03/04/2024" = some ⟨2024, 4, 3⟩ ∧
    parseDateCell (.text "not-a-date") = Cell.na ∧
    (∀ df : RawFrame, df.Rect → df.rows ≠ [] → df.cols ≠ [] →
      (df.cols.map stdName).Nodup →
      detect_results_schema (df.cols.map stdName) = .net_direct →
      ∃ out : Frame, normalize_results_df (some df) = .ok out ∧
        ∀ row ∈ out.rows, ∃ d : PDate,
          row.getD (out.cols.indexOf "date") Cell.na = Cell.date d) ∧
    normalize_results_df (some ⟨["player", "date", "net"],
      [[.text "Ann", .text "01/02/2024", .text "3"],
       [.text "Bob", .text "not-a-date", .text "4"]]⟩) =
      .ok ⟨["player", "date", "net"],
        [[.text "Ann", .date ⟨2024, 2, 1⟩, .num 3]]⟩ := by
  refine ⟨by decide, by decide, fun df hRect hrows hcols hN hdet => ?_, by decide⟩
  set cs := df.cols.map stdName with hcs
  have hDet' := hdet
  rw [detect_on_fixed cs (map_pyLower_map_stdName df.cols)] at hDet'
  have hmem : "player" ∈ cs ∧ "date" ∈ cs ∧ "net" ∈ cs := by
    by_cases h1 : "player" ∈ cs ∧ "date" ∈ cs ∧ "net" ∈ cs
    · exact h1
    · rw [if_neg h1] at hDet'
      split_ifs at hDet'
  obtain ⟨hp, hdm, hnm⟩ := hmem
  refine ⟨_, normalize_netdirect_rowwise df hRect hrows hcols hN hdet, ?_⟩
  intro row hrow
  have hrow' : row ∈ (df.rows.filter (ndKept cs)).map (ndRow cs) := hrow
  obtain ⟨r, hr, rfl⟩ := List.mem_map.mp hrow'
  have hkept : ndKept cs r = true := List.of_mem_filter hr
  have hdK : "date" ∈ fiveCols.filter (fun c => c ∈ cs) :=
    List.mem_filter.mpr ⟨by decide, by simpa using hdm⟩
  have hcols_eq : (Frame.mk (fiveCols.filter (fun c => c ∈ cs))
      ((df.rows.filter (ndKept cs)).map (ndRow cs))).cols =
      fiveCols.filter (fun c => c ∈ cs) := rfl
  rw [hcols_eq]
  unfold ndRow
  rw [getD_map_indexOf _ _ _ _ hdK]
  have hdna : isNA (ndCell cs r "date") = false := by
    unfold ndKept at hkept
    rcases Bool.and_eq_true_iff.mp hkept with ⟨h1, _⟩
    rcases Bool.and_eq_true_iff.mp h1 with ⟨_, h2⟩
    simpa using h2
  rcases parseDateCell_na_or_date (rawAt cs r "date") with hna | ⟨d, hd⟩
  · rw [ndCell_date cs r, hna] at hdna
    exact absurd hdna (by decide)
  · exact ⟨d, by rw [ndCell_date cs r, hd]⟩

/-- Witness for C6: the record-level parsed-date guarantee at a concrete
table containing an unparseable date. -/
theorem claim_C6_date_parsing_witness :
    ∃ out : Frame, normalize_results_df (some ⟨["player", "date", "net"],
      [[.text "Ann", .text "01/02/2024", .text "3"],
       [.text "Bob", .text "not-a-date", .text "4"]]⟩) = .ok out ∧
      ∀ row ∈ out.rows, ∃ d : PDate,
        row.getD (out.cols.indexOf "date") Cell.na = Cell.date d :=
  claim_C6_date_parsing.2.2.1 ⟨["player", "date", "net"],
    [[.text "Ann", .text "01/02/2024", .text "3"],
     [.text "Bob", .text "not-a-date", .text "4"]]⟩
    (by decide) (by decide) (by decide) (by decide) (by decide)

/-- Witness for C10: a one-object heap holding a small net_direct table. -/
theorem claim_C10_no_mutation_witness :
    heapGet (normalizeOnHeap [RawFrame.toFrame ⟨["player", "date", "net"],
      [[.text "A", .text "01/02/2024", .text "5"]]⟩] 0).1 0 =
      RawFrame.toFrame ⟨["player", "date", "net"],
        [[.text "A", .text "01/02/2024", .text "5"]]⟩ ∧
    (normalizeOnHeap [RawFrame.toFrame ⟨["player", "date", "net"],
      [[.text "A", .text "01/02/2024", .text "5"]]⟩] 0).2 =
      normalize_results_df (some ⟨["player", "date", "net"],
        [[.text "A", .text "01/02/2024", .text "5"]]⟩) :=
  claim_C10_no_mutation [RawFrame.toFrame ⟨["player", "date", "net"],
    [[.text "A", .text "01/02/2024", .text "5"]]⟩]
    ⟨["player", "date", "net"], [[.text "A", .text "01/02/2024", .text "5"]]⟩
    0 (by decide) rfl

end Poker
